import Mathlib

/-!
Verification of `ClientStore.js` (client-side key/value storage with
expiration on top of WebStorage, with a cookie fallback).

Shallow embedding notes.
* Strings are modelled as `List Char` (`Str`); JavaScript numbers are
  modelled as exact integers plus a NaN marker (`JsNumber`).  IEEE-754
  rounding is outside the model; all claim-relevant arithmetic (wall-clock
  milliseconds, durations, multipliers) is integral, and ECMAScript `Date`
  time values are themselves integral (TimeClip truncates).
* `JSON.stringify` of the envelope and `JSON.parse` are implemented as
  executable Lean functions over `Str`.  The parser covers null, booleans,
  numerals (the exact `int frac exp` grammar of `JSON.parse`, including
  fractional and exponent forms and the leading-zero rejection), strings
  (with escapes), arrays and objects.  A non-integral numeral's value is
  stored as the floor of its exact decimal magnitude, which is exact for
  the integral `now > timestamp` comparisons that are the program's only
  arithmetic use of parsed numbers.
* The browser collaborators (WebStorage areas, the cookie jar) are
  modelled as association lists with the narrow getItem/setItem/
  removeItem/enumerate (resp. read-string/write-string) interface the
  source uses.
-/

/-- JavaScript strings, modelled as lists of characters. -/
abbrev Str := List Char

/-- The left-brace character, `\x7b`. -/
def lbraceChar : Char := Char.ofNat 123

/-- The right-brace character, `\x7d`. -/
def rbraceChar : Char := Char.ofNat 125

/-- A JavaScript number: either NaN or an exact integer. -/
inductive JsNumber where
  | nan
  | fin (n : Int)
deriving DecidableEq, Repr

/-- JavaScript addition on numbers: NaN propagates. -/
def JsNumber.add : JsNumber → JsNumber → JsNumber
  | .fin a, .fin b => .fin (a + b)
  | _, _ => .nan

/-- JavaScript multiplication on numbers: NaN propagates. -/
def JsNumber.mul : JsNumber → JsNumber → JsNumber
  | .fin a, .fin b => .fin (a * b)
  | _, _ => .nan

/-- A JavaScript argument that may be `undefined`, `null` or a number
(the domain of the `expiration` parameter of `set`). -/
inductive JsArg where
  | undefined
  | null
  | num (x : JsNumber)
deriving DecidableEq, Repr

/-- The options object passed to the `ClientStore` constructor.  A field
set to `none` models the property being absent (`undefined`). -/
structure Options where
  forceCookies : Bool := false
  persistent : Bool := false
  expirationMultiplier : Option JsNumber := none
deriving DecidableEq, Repr

/-- `shouldCookiesBeForced`: `this.options.forceCookies == true`. -/
def shouldCookiesBeForced (o : Options) : Bool := o.forceCookies

/-- `webStorageShouldPersist`: `this.options.persistent == true`. -/
def webStorageShouldPersist (o : Options) : Bool := o.persistent

/-- `getExpirationMultiplier`: `this.options.expirationMultiplier || 1`.
`undefined`, `NaN` and `0` are falsy, hence replaced by `1`. -/
def getExpirationMultiplier (o : Options) : JsNumber :=
  match o.expirationMultiplier with
  | none => .fin 1
  | some .nan => .fin 1
  | some (.fin n) => if n = 0 then .fin 1 else .fin n

/-- `calculateExpirationTime(expiration)`: for an `undefined` or `null`
duration return `null` (modelled `none`); otherwise scale by the
multiplier and add the current wall-clock time (`date.getTime()` of the
updated `Date`). -/
def calculateExpirationTime (o : Options) (now : Int) : JsArg → Option JsNumber
  | .undefined => none
  | .null => none
  | .num x => some ((JsNumber.fin now).add (x.mul (getExpirationMultiplier o)))

/-- A parsed JSON value (result of `JSON.parse`). -/
inductive JVal where
  | null
  | bool (b : Bool)
  | num (n : Int)
  | str (s : Str)
  | arr (xs : List JVal)
  | obj (fs : List (Str × JVal))

/-! ### JSON text: rendering -/

/-- The decimal digit character for `n < 10`. -/
def digitChar10 (n : Nat) : Char := Char.ofNat (48 + n)

/-- Decimal rendering of a natural number, fueled so that it reduces
definitionally; `fuel > n` always suffices. -/
def renderNatF : Nat → Nat → Str
  | 0, _ => []
  | fuel + 1, n =>
    if n < 10 then [digitChar10 n]
    else renderNatF fuel (n / 10) ++ [digitChar10 (n % 10)]

/-- Decimal rendering of a natural number (no leading zeros). -/
def renderNat (n : Nat) : Str := renderNatF (n + 1) n

/-- Decimal rendering of an integer, as `JSON.stringify` renders an
integral JavaScript number. -/
def renderInt (t : Int) : Str :=
  if t < 0 then '-' :: renderNat t.natAbs else renderNat t.natAbs

/-- Lowercase hexadecimal digit character for `n < 16`. -/
def hexChar (n : Nat) : Char :=
  if n < 10 then Char.ofNat (48 + n) else Char.ofNat (87 + n)

/-- `JSON.stringify` escaping of one string character: quote and
backslash get a backslash escape, the common control characters get
their short escapes, other control characters get a `\u00xx` escape,
everything else is emitted verbatim. -/
def escChar (c : Char) : Str :=
  if c = '\"' then ['\\', '\"']
  else if c = '\\' then ['\\', '\\']
  else if c = Char.ofNat 8 then ['\\', 'b']
  else if c = '\t' then ['\\', 't']
  else if c = '\n' then ['\\', 'n']
  else if c = Char.ofNat 12 then ['\\', 'f']
  else if c = '\r' then ['\\', 'r']
  else if c.toNat < 32 then
    ['\\', 'u', '0', '0', hexChar (c.toNat / 16), hexChar (c.toNat % 16)]
  else [c]

/-- `JSON.stringify` escaping of a string body. -/
def escapeStr : Str → Str
  | [] => []
  | c :: cs => escChar c ++ escapeStr cs

/-- The characters of the envelope field name `expiration`. -/
def expirationKey : Str := ['e', 'x', 'p', 'i', 'r', 'a', 't', 'i', 'o', 'n']

/-- The characters of the envelope field name `data`. -/
def dataKey : Str := ['d', 'a', 't', 'a']

/-- Rendering of the envelope's `expiration` property value:
`JSON.stringify` renders both `null` and `NaN` as `null`. -/
def renderExpiration : Option JsNumber → Str
  | none => ['n', 'u', 'l', 'l']
  | some .nan => ['n', 'u', 'l', 'l']
  | some (.fin t) => renderInt t

/-- `JSON.stringify({expiration: e, data: v})` — the exact text stored
by `setWebStorage`. -/
def serializeEnvelope (e : Option JsNumber) (v : Str) : Str :=
  lbraceChar :: '\"' :: expirationKey ++ '\"' :: ':' :: renderExpiration e
    ++ ',' :: '\"' :: dataKey ++ '\"' :: ':' :: '\"' :: escapeStr v
    ++ '\"' :: [rbraceChar]

/-! ### JSON text: parsing (a model of `JSON.parse`) -/

/-- JSON whitespace. -/
def isWsChar (c : Char) : Bool :=
  c = ' ' || c = '\t' || c = '\n' || c = '\r'

/-- Skip leading JSON whitespace. -/
def skipWs (l : Str) : Str := l.dropWhile isWsChar

/-- Consume an expected literal run of characters. -/
def expectLit (pat l : Str) : Option Str :=
  match pat, l with
  | [], rest => some rest
  | _ :: _, [] => none
  | p :: ps, c :: cs => if c = p then expectLit ps cs else none

/-- Value of a decimal digit character. -/
def digitVal (c : Char) : Option Nat :=
  if 48 ≤ c.toNat && c.toNat ≤ 57 then some (c.toNat - 48) else none

/-- Consume a run of decimal digits, most significant first. -/
def parseDigitsAux : Str → Nat → Nat × Str
  | [], acc => (acc, [])
  | c :: cs, acc =>
    match digitVal c with
    | some d => parseDigitsAux cs (acc * 10 + d)
    | none => (acc, c :: cs)

/-- Parse a nonempty run of decimal digits. -/
def parseNat (l : Str) : Option (Nat × Str) :=
  match l with
  | c :: _ => if (digitVal c).isSome then some (parseDigitsAux l 0) else none
  | [] => none

/-- Consume a run of decimal digits, also counting how many were
consumed. -/
def parseDigitsCnt : Str → Nat → Nat → Nat × Nat × Str
  | [], acc, cnt => (acc, cnt, [])
  | c :: cs, acc, cnt =>
    match digitVal c with
    | some d => parseDigitsCnt cs (acc * 10 + d) (cnt + 1)
    | none => (acc, cnt, c :: cs)

/-- The JSON `int` production: a bare `0`, or a nonzero digit followed
by digits — leading zeros are not part of the numeral, exactly as in
`JSON.parse` (so the text `05` fails overall, the `0` ending before the
`5`). -/
def parseIntPart (l : Str) : Option (Nat × Str) :=
  match l with
  | [] => none
  | c :: _ =>
    if c = '0' then some (0, l.tail)
    else
      match digitVal c with
      | some _ => some (parseDigitsAux l 0)
      | none => none

/-- The JSON `exp` production (optional): `e`/`E`, an optional sign and
at least one digit.  It scales the magnitude `num/den` accumulated so
far. -/
def parseExpPart (num den : Nat) (l : Str) : Option ((Nat × Nat) × Str) :=
  match l with
  | [] => some ((num, den), [])
  | c :: cs =>
    if c = 'e' ∨ c = 'E' then
      match cs with
      | [] => none
      | d :: cs2 =>
        if d = '+' then
          match cs2 with
          | [] => none
          | e2 :: _ =>
            if (digitVal e2).isSome then
              some ((num * 10 ^ (parseDigitsAux cs2 0).1, den), (parseDigitsAux cs2 0).2)
            else none
        else if d = '-' then
          match cs2 with
          | [] => none
          | e2 :: _ =>
            if (digitVal e2).isSome then
              some ((num, den * 10 ^ (parseDigitsAux cs2 0).1), (parseDigitsAux cs2 0).2)
            else none
        else if (digitVal d).isSome then
          some ((num * 10 ^ (parseDigitsAux cs 0).1, den), (parseDigitsAux cs 0).2)
        else none
    else some ((num, den), c :: cs)

/-- The JSON `frac` production (optional): `.` and at least one digit,
followed by the `exp` production.  Yields the numeral's exact decimal
magnitude as a numerator/denominator pair. -/
def parseFracExp (i : Nat) (l : Str) : Option ((Nat × Nat) × Str) :=
  match l with
  | [] => parseExpPart i 1 []
  | c :: cs =>
    if c = '.' then
      match cs with
      | [] => none
      | d :: _ =>
        if (digitVal d).isSome then
          let p := parseDigitsCnt cs 0 0
          parseExpPart (i * 10 ^ p.2.1 + p.1) (10 ^ p.2.1) p.2.2
        else none
    else parseExpPart i 1 (c :: cs)

/-- A JSON numeral: optional minus, `int`, `frac`, `exp` — the exact
grammar `JSON.parse` accepts.  The numeral's value in JavaScript is an
IEEE double; the model computes the exact decimal magnitude `num/den`
and stores its floor as an integer.  For the integral wall-clock
comparisons `now > x` that are the program's only arithmetic use of a
parsed number, the floor is exact (`now > x ↔ now > ⌊x⌋` for integral
`now`), and on the integral numerals the program itself writes the
value is the numeral's exact value. -/
def parseJsonNumber (l : Str) : Option (Int × Str) :=
  match l with
  | [] => none
  | c :: rest =>
    if c = '-' then
      match parseIntPart rest with
      | none => none
      | some (i, r1) =>
        (parseFracExp i r1).map (fun p =>
          (-((((p.1.1 + p.1.2 - 1) / p.1.2 : Nat)) : Int), p.2))
    else
      match parseIntPart (c :: rest) with
      | none => none
      | some (i, r1) =>
        (parseFracExp i r1).map (fun p => ((((p.1.1 / p.1.2 : Nat)) : Int), p.2))

/-- Decode a single-character JSON string escape. -/
def unescapeSimple (e : Char) : Option Char :=
  if e = '\"' then some '\"'
  else if e = '\\' then some '\\'
  else if e = '/' then some '/'
  else if e = 'b' then some (Char.ofNat 8)
  else if e = 't' then some '\t'
  else if e = 'n' then some '\n'
  else if e = 'f' then some (Char.ofNat 12)
  else if e = 'r' then some '\r'
  else none

/-- Value of a hexadecimal digit character. -/
def hexDigitVal (c : Char) : Option Nat :=
  if 48 ≤ c.toNat && c.toNat ≤ 57 then some (c.toNat - 48)
  else if 97 ≤ c.toNat && c.toNat ≤ 102 then some (c.toNat - 87)
  else if 65 ≤ c.toNat && c.toNat ≤ 70 then some (c.toNat - 55)
  else none

/-- Parse a JSON string body (after the opening quote), handling escape
sequences; raw control characters are rejected, as `JSON.parse` does.
Fueled so that it reduces definitionally; each step consumes at least
one character, so `fuel > length` always suffices. -/
def parseStringBodyF : Nat → Str → Option (Str × Str)
  | 0, _ => none
  | fuel + 1, l =>
    match l with
    | [] => none
    | c :: cs =>
      if c = '\"' then some ([], cs)
      else if c = '\\' then
        match cs with
        | [] => none
        | e :: cs1 =>
          if e = 'u' then
            match cs1 with
            | h1 :: h2 :: h3 :: h4 :: cs2 =>
              match hexDigitVal h1, hexDigitVal h2, hexDigitVal h3, hexDigitVal h4 with
              | some a, some b, some c3, some d =>
                let n := ((a * 16 + b) * 16 + c3) * 16 + d
                if n.isValidChar then
                  (parseStringBodyF fuel cs2).map (fun p => (Char.ofNat n :: p.1, p.2))
                else none
              | _, _, _, _ => none
            | _ => none
          else
            match unescapeSimple e with
            | some ch => (parseStringBodyF fuel cs1).map (fun p => (ch :: p.1, p.2))
            | none => none
      else if c.toNat < 32 then none
      else (parseStringBodyF fuel cs).map (fun p => (c :: p.1, p.2))

/-- Parse a JSON string body (after the opening quote). -/
def parseStringBody (l : Str) : Option (Str × Str) :=
  parseStringBodyF (l.length + 1) l

mutual

/-- Parse one JSON value.  The fuel argument bounds recursion depth; the
top level supplies `length + 1`, which is always sufficient because each
recursive step consumes at least one input character. -/
def parseVal : Nat → Str → Option (JVal × Str)
  | 0, _ => none
  | fuel + 1, l =>
    match skipWs l with
    | [] => none
    | c :: cs =>
      if c = 'n' then (expectLit ['u', 'l', 'l'] cs).map (fun r => (JVal.null, r))
      else if c = 't' then (expectLit ['r', 'u', 'e'] cs).map (fun r => (JVal.bool true, r))
      else if c = 'f' then (expectLit ['a', 'l', 's', 'e'] cs).map (fun r => (JVal.bool false, r))
      else if c = '\"' then (parseStringBody cs).map (fun p => (JVal.str p.1, p.2))
      else if c = '[' then
        match skipWs cs with
        | d :: rest =>
          if d = ']' then some (JVal.arr [], rest)
          else (parseArrItems fuel cs).map (fun p => (JVal.arr p.1, p.2))
        | [] => none
      else if c = lbraceChar then
        match skipWs cs with
        | d :: rest =>
          if d = rbraceChar then some (JVal.obj [], rest)
          else (parseObjItems fuel cs).map (fun p => (JVal.obj p.1, p.2))
        | [] => none
      else (parseJsonNumber (c :: cs)).map (fun p => (JVal.num p.1, p.2))

/-- Parse the comma-separated elements of a nonempty JSON array,
including the closing bracket. -/
def parseArrItems : Nat → Str → Option (List JVal × Str)
  | 0, _ => none
  | fuel + 1, l =>
    match parseVal fuel l with
    | none => none
    | some (v, rest) =>
      match skipWs rest with
      | c :: rest1 =>
        if c = ',' then (parseArrItems fuel rest1).map (fun p => (v :: p.1, p.2))
        else if c = ']' then some ([v], rest1)
        else none
      | [] => none

/-- Parse the comma-separated members of a nonempty JSON object,
including the closing brace. -/
def parseObjItems : Nat → Str → Option (List (Str × JVal) × Str)
  | 0, _ => none
  | fuel + 1, l =>
    match skipWs l with
    | c :: cs =>
      if c = '\"' then
        match parseStringBody cs with
        | none => none
        | some (k, rest) =>
          match skipWs rest with
          | d :: rest1 =>
            if d = ':' then
              match parseVal fuel rest1 with
              | none => none
              | some (v, rest2) =>
                match skipWs rest2 with
                | b :: rest3 =>
                  if b = ',' then
                    (parseObjItems fuel rest3).map (fun p => ((k, v) :: p.1, p.2))
                  else if b = rbraceChar then some ([(k, v)], rest3)
                  else none
                | [] => none
            else none
          | [] => none
      else none
    | [] => none

end

/-- `JSON.parse`: parse a complete JSON text; trailing non-whitespace is
an error. -/
def parseJson (s : Str) : Option JVal :=
  match parseVal (s.length + 1) s with
  | some (v, rest) => if skipWs rest = [] then some v else none
  | none => none

/-! ### The WebStorage collaborator

A storage area is an association list of key/value pairs of strings,
accessed only through `getItem`, `setItem`, `removeItem` and key
enumeration — the narrow interface `ClientStore.js` uses. -/

/-- A WebStorage area (localStorage or sessionStorage). -/
abbrev StorageArea := List (Str × Str)

/-- `getItem`: the value stored at a key, or `null`. -/
def StorageArea.getItem (a : StorageArea) (k : Str) : Option Str :=
  (a.find? (fun p => p.1 = k)).map (fun p => p.2)

/-- `setItem`: overwrite the entry at a key in place, or append. -/
def StorageArea.setItem : StorageArea → Str → Str → StorageArea
  | [], k, v => [(k, v)]
  | (k', v') :: rest, k, v =>
    if k' = k then (k, v) :: rest else (k', v') :: StorageArea.setItem rest k v

/-- `removeItem`: delete the entry at a key. -/
def StorageArea.removeItem (a : StorageArea) (k : Str) : StorageArea :=
  a.filter (fun p => ¬ p.1 = k)

/-- The keys of a storage area, in enumeration order (the range of
`for(var key in wsMechanism)`). -/
def StorageArea.keys (a : StorageArea) : List Str := a.map (fun p => p.1)

/-- Keys of a storage area are distinct — the invariant every real
WebStorage area satisfies. -/
def StorageArea.WF (a : StorageArea) : Prop := a.keys.Nodup

/-! ### Structured-storage backend operations -/

/-- Result of a JavaScript property access `v.f` on a parsed JSON
value: accessing a property of `null` throws a `TypeError`; objects
yield the property value or `undefined`; every other value yields
`undefined`. -/
inductive FieldAccess where
  | throwErr
  | undefined
  | val (v : JVal)

/-- Last-wins lookup in a parsed JSON object (as `JSON.parse` keeps the
last duplicate member). -/
def objLookupLast (fs : List (Str × JVal)) (name : Str) : Option JVal :=
  fs.foldl (fun acc p => if p.1 = name then some p.2 else acc) none

/-- The JavaScript property access `v.name` for parse results. -/
def getFieldJS (v : JVal) (name : Str) : FieldAccess :=
  match v with
  | .null => .throwErr
  | .obj fs =>
    match objLookupLast fs name with
    | some x => .val x
    | none => .undefined
  | _ => .undefined

/-- `Number()` coercion of a string: whitespace-trimmed; empty is `0`;
an optionally signed decimal numeral is its value; anything else is
`NaN`.  (Fractional, hexadecimal and `Infinity` forms are modelled as
`NaN`; no claim depends on them.) -/
def strToNumber (s : Str) : JsNumber :=
  let t := ((s.dropWhile isWsChar).reverse.dropWhile isWsChar).reverse
  if t.isEmpty then .fin 0
  else
    match t with
    | '-' :: ds =>
      match parseNat ds with
      | some (n, []) => .fin (-(n : Int))
      | _ => .nan
    | '+' :: ds =>
      match parseNat ds with
      | some (n, []) => .fin (n : Int)
      | _ => .nan
    | ds =>
      match parseNat ds with
      | some (n, []) => .fin (n : Int)
      | _ => .nan

/-- `Number()` coercion of a JavaScript value.  Arrays and objects
coerce through `toString`; the model maps them to `NaN`, which is
adequate for every claim-relevant input. -/
def toNumberJS : FieldAccess → JsNumber
  | .throwErr => .nan
  | .undefined => .nan
  | .val .null => .fin 0
  | .val (.bool true) => .fin 1
  | .val (.bool false) => .fin 0
  | .val (.num n) => .fin n
  | .val (.str s) => strToNumber s
  | .val (.arr _) => .nan
  | .val (.obj _) => .nan

/-- `setWebStorage(key, value, expiration)`: compute the expiration
timestamp, build the `{expiration, data}` payload, serialize it and
store it under the key. -/
def setWebStorage (o : Options) (now : Int) (area : StorageArea)
    (key value : Str) (expiration : JsArg) : StorageArea :=
  area.setItem key (serializeEnvelope (calculateExpirationTime o now expiration) value)

/-- `getWebStorage(key)`: read the stored payload; `null` when absent;
on successful parse return the payload's `data` property (the
`TypeError` thrown by `JSON.parse(storedData).data` when the payload
parses to `null` is caught, falling back to the raw text, exactly like
a parse error). -/
def getWebStorage (area : StorageArea) (key : Str) : Option JVal :=
  match area.getItem key with
  | none => some .null
  | some storedData =>
    match parseJson storedData with
    | none => some (.str storedData)
    | some payload =>
      match getFieldJS payload dataKey with
      | .throwErr => some (.str storedData)
      | .undefined => none
      | .val v => some v

/-- The per-entry decision of `expireWebStorage`: remove the entry iff
its text parses, its `expiration` property is not `null` (a `TypeError`
while reading the property is caught and skips the entry), and
`now > Number(expiration)` — a comparison that is false for `NaN`. -/
def shouldRemove (now : Int) (storedData : Str) : Bool :=
  match parseJson storedData with
  | none => false
  | some payload =>
    match getFieldJS payload expirationKey with
    | .throwErr => false
    | .undefined =>
      match toNumberJS .undefined with
      | .nan => false
      | .fin t => now > t
    | .val .null => false
    | .val x =>
      match toNumberJS (.val x) with
      | .nan => false
      | .fin t => now > t

/-- One iteration of `expireWebStorage`'s loop body at a single key. -/
def expireStep (now : Int) (st : StorageArea) (key : Str) : StorageArea :=
  match st.getItem key with
  | none => st
  | some v => if shouldRemove now v then st.removeItem key else st

/-- `expireWebStorage()`: sweep every key of the storage area and remove
the entries whose expiration has strictly passed. -/
def expireWebStorage (now : Int) (area : StorageArea) : StorageArea :=
  area.keys.foldl (expireStep now) area

/-! ### The cookie collaborator and backend -/

/-- The browser cookie jar, as a list of name/value cookies.  Modelled
from the spec: the jar is an external collaborator exposing a single
read/write string property; reading renders all cookies as
`k1=v1; k2=v2`; writing parses the name up to the first `=` and the
value up to the first `;` (attribute text after the first `;` carries
no information the modelled claims depend on) and overwrites any cookie
with the same name. -/
abbrev CookieJar := List (Str × Str)

/-- Rendering of the second and later cookies: each is preceded by
the `; ` separator. -/
def cookieJarReadRest : CookieJar → Str
  | [] => []
  | (n, v) :: rest => ';' :: ' ' :: (n ++ '=' :: v ++ cookieJarReadRest rest)

/-- Reading `document.cookie`: render the jar as `k1=v1; k2=v2; ...`. -/
def cookieJarRead : CookieJar → Str
  | [] => []
  | (n, v) :: rest => n ++ '=' :: v ++ cookieJarReadRest rest

/-- Writing `document.cookie = s`: store the cookie named by the text
before the first `=` (empty if there is none), valued by the text
between the first `=` and the first `;`. -/
def cookieJarWrite (jar : CookieJar) (s : Str) : CookieJar :=
  let pair := s.takeWhile (fun c => ¬ c = ';')
  if pair.any (fun c => c = '=') then
    let name := pair.takeWhile (fun c => ¬ c = '=')
    let value := (pair.dropWhile (fun c => ¬ c = '=')).drop 1
    StorageArea.setItem jar name value
  else
    StorageArea.setItem jar [] pair

/-- Models the platform `Date#toUTCString`.  Modelled from the spec: the
`expires` attribute is an HTTP-date the browser alone interprets; the
jar model does not inspect attribute text, so the rendering is
abstracted as the decimal timestamp. -/
def dateToUTCString (t : Int) : Str := renderInt t

/-- `setCookie(key, value, expiration)`: format `key=value` plus, when
the computed expiration timestamp is truthy, `; expires=<date>`, and
assign it to `document.cookie`. -/
def setCookie (o : Options) (now : Int) (jar : CookieJar)
    (key value : Str) (expiration : JsArg) : CookieJar :=
  let keyValueString := key ++ '=' :: value
  let expirationString :=
    match calculateExpirationTime o now expiration with
    | none => []
    | some .nan => []
    | some (.fin t) =>
      if t = 0 then []
      else ';' :: ' ' :: ['e', 'x', 'p', 'i', 'r', 'e', 's', '='] ++ dateToUTCString t
  cookieJarWrite jar (keyValueString ++ expirationString)

/-- One step of `getCookie`'s scan: trim leading spaces from the chunk
and test whether it starts with `key=`. -/
def getCookieScan (name : Str) : List Str → Option Str
  | [] => none
  | chunk :: rest =>
    let c := chunk.dropWhile (fun ch => ch = ' ')
    if name.isPrefixOf c then some (c.drop name.length)
    else getCookieScan name rest

/-- Split a string at every semicolon (the `split(';')` of
`getCookie`). -/
def splitSemi : Str → List Str
  | [] => [[]]
  | c :: cs =>
    if c = ';' then [] :: splitSemi cs
    else
      match splitSemi cs with
      | [] => [[c]]
      | s :: ss => (c :: s) :: ss

/-- `getCookie(key)`: split the cookie string at semicolons and return
the remainder of the first chunk that, after trimming leading spaces,
starts with `key=`; `null` when none does. -/
def getCookie (cookieStr key : Str) : Option Str :=
  getCookieScan (key ++ ['=']) (splitSemi cookieStr)

/-! ### Backend selection and the Store facade -/

/-- The backend a `ClientStore` binds at construction. -/
inductive Backend where
  | webStorage
  | cookie
deriving DecidableEq, Repr

/-- The `ClientStore` constructor's backend choice:
`!this.shouldCookiesBeForced() && this.isWebStorageSupported()` selects
the WebStorage methods, anything else the cookie methods.  The choice
is a pure function of the construction-time inputs and is never
re-evaluated. -/
def constructBackend (o : Options) (webStorageSupported : Bool) : Backend :=
  if ¬ shouldCookiesBeForced o && webStorageSupported then .webStorage else .cookie

/-- The ambient world of browser state: both WebStorage areas and the
cookie jar. -/
structure World where
  localStorage : StorageArea
  sessionStorage : StorageArea
  cookie : CookieJar

/-- `getWebStorageMechanism`: the persistent or session-scoped area. -/
def getWebStorageMechanism (o : Options) (w : World) : StorageArea :=
  if webStorageShouldPersist o then w.localStorage else w.sessionStorage

/-- Write back the selected mechanism's area. -/
def putWebStorageMechanism (o : Options) (w : World) (a : StorageArea) : World :=
  if webStorageShouldPersist o then { w with localStorage := a }
  else { w with sessionStorage := a }

/-- The bound `get` method: result value and the world after the call. -/
def storeGet (b : Backend) (o : Options) (w : World) (key : Str) :
    Option JVal × World :=
  match b with
  | .webStorage => (getWebStorage (getWebStorageMechanism o w) key, w)
  | .cookie =>
    match getCookie (cookieJarRead w.cookie) key with
    | some v => (some (.str v), w)
    | none => (some .null, w)

/-- The bound `set` method. -/
def storeSet (b : Backend) (o : Options) (now : Int) (w : World)
    (key value : Str) (expiration : JsArg) : World :=
  match b with
  | .webStorage =>
    putWebStorageMechanism o w
      (setWebStorage o now (getWebStorageMechanism o w) key value expiration)
  | .cookie => { w with cookie := setCookie o now w.cookie key value expiration }

/-- The bound `expire` method: the WebStorage sweep, or — when the
cookie methods were bound — the prototype's `expire: function() {}`
stub, which does nothing. -/
def storeExpire (b : Backend) (o : Options) (now : Int) (w : World) : World :=
  match b with
  | .webStorage =>
    putWebStorageMechanism o w (expireWebStorage now (getWebStorageMechanism o w))
  | .cookie => w

/-! ### Derived and spec-side definitions used by the claims -/

/-- The parse result of a serialized envelope `expiration` property:
`null` and `NaN` both read back as JSON `null`. -/
def expirationJVal : Option JsNumber → JVal
  | none => .null
  | some .nan => .null
  | some (.fin t) => .num t

/-- A string that does not begin with a decimal digit (so a digit run
ends exactly before it). -/
def nonDigitHead : Str → Prop
  | [] => True
  | c :: _ => digitVal c = none

/-- A well-formed cookie name: no `;`, no `=`, no space. -/
def CookieNameOk (n : Str) : Prop := ¬ ';' ∈ n ∧ ¬ '=' ∈ n ∧ ¬ ' ' ∈ n

/-- A well-formed cookie value: no `;`. -/
def CookieValueOk (w : Str) : Prop := ¬ ';' ∈ w

/-- Every cookie in the jar is well-formed. -/
def CookieJarOk (jar : CookieJar) : Prop :=
  ∀ p ∈ jar, CookieNameOk p.1 ∧ CookieValueOk p.2

/-- The claim's reading of `getCookie`: the value of the first pair
whose key equals the requested key. -/
def specGetCookie (pairs : List (Str × Str)) (k : Str) : Option Str :=
  (pairs.find? (fun p => p.1 = k)).map (fun p => p.2)

theorem digitVal_digitChar10 : ∀ m, m < 10 → digitVal (digitChar10 m) = some m := by
  decide

theorem digitChar10_bounds : ∀ m, m < 10 →
    48 ≤ (digitChar10 m).toNat ∧ (digitChar10 m).toNat ≤ 57 := by
  decide

theorem renderNatF_cons (fuel : Nat) :
    ∀ n, n < fuel → ∃ c cs, renderNatF fuel n = c :: cs ∧
      48 ≤ c.toNat ∧ c.toNat ≤ 57 := by
  induction fuel with
  | zero => intro n h; omega
  | succ fuel ih =>
    intro n h
    by_cases h10 : n < 10
    · exact ⟨digitChar10 n, [], by simp [renderNatF, h10],
        (digitChar10_bounds n h10).1, (digitChar10_bounds n h10).2⟩
    · have hdiv : n / 10 < fuel := by
        have := Nat.div_lt_self (show 0 < n by omega) (show 1 < 10 by omega)
        omega
      obtain ⟨c, cs, hc, hlo, hhi⟩ := ih (n / 10) hdiv
      exact ⟨c, cs ++ [digitChar10 (n % 10)], by simp [renderNatF, h10, hc],
        hlo, hhi⟩

theorem parseDigitsAux_renderNatF (fuel : Nat) :
    ∀ n, n < fuel → ∀ acc rest,
      parseDigitsAux (renderNatF fuel n ++ rest) acc =
        parseDigitsAux rest (acc * 10 ^ (renderNatF fuel n).length + n) := by
  induction fuel with
  | zero => intro n h; omega
  | succ fuel ih =>
    intro n h acc rest
    by_cases h10 : n < 10
    · simp only [renderNatF, if_pos h10, List.cons_append, List.nil_append,
        List.length_cons, List.length_nil]
      simp [parseDigitsAux, digitVal_digitChar10 n h10]
    · have hdiv : n / 10 < fuel := by
        have := Nat.div_lt_self (show 0 < n by omega) (show 1 < 10 by omega)
        omega
      simp only [renderNatF, if_neg h10]
      rw [List.append_assoc, ih (n / 10) hdiv]
      simp only [List.cons_append, List.nil_append, parseDigitsAux,
        digitVal_digitChar10 (n % 10) (Nat.mod_lt n (by omega))]
      congr 1
      simp only [List.length_append, List.length_cons, List.length_nil]
      have h1 : n / 10 * 10 + n % 10 = n := by omega
      calc (acc * 10 ^ (renderNatF fuel (n / 10)).length + n / 10) * 10 + n % 10
          = acc * (10 ^ (renderNatF fuel (n / 10)).length * 10) +
              (n / 10 * 10 + n % 10) := by ring
        _ = acc * 10 ^ ((renderNatF fuel (n / 10)).length + 1) + n := by
              rw [h1, pow_succ]

theorem parseDigitsAux_stop (rest : Str) (h : nonDigitHead rest) (acc : Nat) :
    parseDigitsAux rest acc = (acc, rest) := by
  cases rest with
  | nil => rfl
  | cons c cs => simp [parseDigitsAux, nonDigitHead] at h ⊢; simp [h]

theorem parseNat_renderNat (n : Nat) (rest : Str) (h : nonDigitHead rest) :
    parseNat (renderNat n ++ rest) = some (n, rest) := by
  obtain ⟨c, cs, hc, hlo, hhi⟩ := renderNatF_cons (n + 1) n (by omega)
  rw [renderNat, hc]
  have hd : (digitVal c).isSome := by
    simp only [digitVal]
    have : (48 ≤ c.toNat && c.toNat ≤ 57) = true := by
      simp [hlo, hhi]
    simp [this]
  simp only [List.cons_append, parseNat, hd, if_pos]
  rw [← List.cons_append, ← hc, parseDigitsAux_renderNatF (n + 1) n (by omega)]
  rw [parseDigitsAux_stop rest h]
  simp

theorem digitChar10_ne_zero : ∀ m, m < 10 → ¬ m = 0 → ¬ digitChar10 m = '0' := by
  decide

theorem renderNatF_cons' (fuel : Nat) :
    ∀ n, n < fuel → ∃ c cs, renderNatF fuel n = c :: cs ∧
      48 ≤ c.toNat ∧ c.toNat ≤ 57 ∧ (¬ n = 0 → ¬ c = '0') := by
  induction fuel with
  | zero => intro n h; omega
  | succ fuel ih =>
    intro n h
    by_cases h10 : n < 10
    · exact ⟨digitChar10 n, [], by simp [renderNatF, h10],
        (digitChar10_bounds n h10).1, (digitChar10_bounds n h10).2,
        fun h0 => digitChar10_ne_zero n h10 h0⟩
    · have hdiv : n / 10 < fuel := by
        have := Nat.div_lt_self (show 0 < n by omega) (show 1 < 10 by omega)
        omega
      obtain ⟨c, cs, hc, hlo, hhi, hz⟩ := ih (n / 10) hdiv
      refine ⟨c, cs ++ [digitChar10 (n % 10)],
        by simp [renderNatF, h10, hc], hlo, hhi, ?_⟩
      intro _
      exact hz (by omega)

theorem parseIntPart_renderNat (n : Nat) (rest : Str) (h : nonDigitHead rest) :
    parseIntPart (renderNat n ++ rest) = some (n, rest) := by
  by_cases h0 : n = 0
  · subst h0
    show parseIntPart ('0' :: rest) = some (0, rest)
    rfl
  · obtain ⟨c, cs, hc, hlo, hhi, hz⟩ := renderNatF_cons' (n + 1) n (by omega)
    have hcz : ¬ c = '0' := hz h0
    rw [renderNat, hc]
    have hd : digitVal c = some (c.toNat - 48) := by
      unfold digitVal
      rw [if_pos (by simp [hlo, hhi])]
    simp only [List.cons_append, parseIntPart, if_neg hcz, hd, List.tail_cons]
    rw [← List.cons_append, ← hc, parseDigitsAux_renderNatF (n + 1) n (by omega),
      parseDigitsAux_stop rest h]
    simp

theorem parseJsonNumber_renderInt (t : Int) (T : Str) :
    parseJsonNumber (renderInt t ++ ',' :: T) = some (t, ',' :: T) := by
  have hfe : ∀ i : Nat, parseFracExp i (',' :: T) = some ((i, 1), ',' :: T) :=
    fun i => rfl
  by_cases hneg : t < 0
  · simp only [renderInt, if_pos hneg, List.cons_append, parseJsonNumber, if_pos rfl]
    rw [parseIntPart_renderNat t.natAbs (',' :: T) (by simp [nonDigitHead, digitVal])]
    simp only [hfe, Option.map_some']
    have habs : (-(((t.natAbs + 1 - 1) / 1 : Nat) : Int)) = t := by omega
    rw [habs]
    simp
  · obtain ⟨c, cs, hc, hlo, hhi, hz⟩ := renderNatF_cons' (t.natAbs + 1) t.natAbs (by omega)
    have hrw : (renderInt t ++ ',' :: T : Str) = c :: (cs ++ ',' :: T) := by
      simp [renderInt, hneg, renderNat, hc]
    rw [hrw]
    have hcne : ¬ c = '-' := by
      intro hctr; subst hctr; revert hlo hhi; decide
    simp only [parseJsonNumber, if_neg hcne]
    rw [← List.cons_append, ← hc, ← renderNat,
      parseIntPart_renderNat t.natAbs (',' :: T) (by simp [nonDigitHead, digitVal])]
    simp only [hfe, Option.map_some']
    have habs : (((t.natAbs / 1 : Nat)) : Int) = t := by omega
    rw [habs]

theorem skipWs_cons (c : Char) (l : Str) (h : isWsChar c = false) :
    skipWs (c :: l) = c :: l := by
  simp [skipWs, List.dropWhile, h]

/-- Character facts needed to route a digit or minus sign through
`parseVal`'s dispatch: such a head is not whitespace and matches none of
the non-number branches. -/
theorem numberHead_route (c : Char) (h : 45 ≤ c.toNat ∧ c.toNat ≤ 57 ∧ ¬ c.toNat = 46 ∧ ¬ c.toNat = 47) :
    isWsChar c = false ∧ ¬ c = 'n' ∧ ¬ c = 't' ∧ ¬ c = 'f' ∧
      ¬ c = '\"' ∧ ¬ c = '[' ∧ ¬ c = lbraceChar := by
  obtain ⟨h1, h2, h3, h4⟩ := h
  refine ⟨?_, ?_, ?_, ?_, ?_, ?_, ?_⟩
  · simp only [isWsChar, Bool.or_eq_false_iff, decide_eq_false_iff_not]
    refine ⟨⟨⟨?_, ?_⟩, ?_⟩, ?_⟩ <;> (intro hc; subst hc; revert h1 h2 h3 h4; decide)
  all_goals intro hc; subst hc; revert h1 h2 h3 h4; decide

/-! ### Round-trip lemmas: strings -/

theorem hexDigitVal_hexChar : ∀ m, m < 16 → hexDigitVal (hexChar m) = some m := by
  decide

theorem parseStringBodyF_escape (v : Str) :
    ∀ (fuel : Nat) (rest : Str), (escapeStr v).length < fuel →
      parseStringBodyF fuel (escapeStr v ++ '\"' :: rest) = some (v, rest) := by
  induction v with
  | nil =>
    intro fuel rest h
    cases fuel with
    | zero => simp [escapeStr] at h
    | succ f => rfl
  | cons c v' ih =>
    intro fuel rest h
    have hesc : escapeStr (c :: v') = escChar c ++ escapeStr v' := rfl
    by_cases h1 : c = '\"'
    · subst h1
      cases fuel with
      | zero => simp at h
      | succ f =>
        have hlen : (escapeStr v').length < f := by
          rw [hesc, List.length_append] at h
          simp [escChar] at h
          omega
        show (parseStringBodyF f (escapeStr v' ++ '\"' :: rest)).map
            (fun p => (('\"' :: p.1 : Str), p.2)) = some ('\"' :: v', rest)
        rw [ih f rest hlen]
        rfl
    · by_cases h2 : c = '\\'
      · subst h2
        cases fuel with
        | zero => simp at h
        | succ f =>
          have hlen : (escapeStr v').length < f := by
            rw [hesc, List.length_append] at h
            simp [escChar] at h
            omega
          show (parseStringBodyF f (escapeStr v' ++ '\"' :: rest)).map
              (fun p => (('\\' :: p.1 : Str), p.2)) = some ('\\' :: v', rest)
          rw [ih f rest hlen]
          rfl
      · by_cases h3 : c = Char.ofNat 8
        · subst h3
          cases fuel with
          | zero => simp at h
          | succ f =>
            have hlen : (escapeStr v').length < f := by
              rw [hesc, List.length_append] at h
              simp [escChar] at h
              omega
            show (parseStringBodyF f (escapeStr v' ++ '\"' :: rest)).map
                (fun p => ((Char.ofNat 8 :: p.1 : Str), p.2)) =
                  some (Char.ofNat 8 :: v', rest)
            rw [ih f rest hlen]
            rfl
        · by_cases h4 : c = '\t'
          · subst h4
            cases fuel with
            | zero => simp at h
            | succ f =>
              have hlen : (escapeStr v').length < f := by
                rw [hesc, List.length_append] at h
                simp [escChar] at h
                omega
              show (parseStringBodyF f (escapeStr v' ++ '\"' :: rest)).map
                  (fun p => (('\t' :: p.1 : Str), p.2)) = some ('\t' :: v', rest)
              rw [ih f rest hlen]
              rfl
          · by_cases h5 : c = '\n'
            · subst h5
              cases fuel with
              | zero => simp at h
              | succ f =>
                have hlen : (escapeStr v').length < f := by
                  rw [hesc, List.length_append] at h
                  simp [escChar] at h
                  omega
                show (parseStringBodyF f (escapeStr v' ++ '\"' :: rest)).map
                    (fun p => (('\n' :: p.1 : Str), p.2)) = some ('\n' :: v', rest)
                rw [ih f rest hlen]
                rfl
            · by_cases h6 : c = Char.ofNat 12
              · subst h6
                cases fuel with
                | zero => simp at h
                | succ f =>
                  have hlen : (escapeStr v').length < f := by
                    rw [hesc, List.length_append] at h
                    simp [escChar] at h
                    omega
                  show (parseStringBodyF f (escapeStr v' ++ '\"' :: rest)).map
                      (fun p => ((Char.ofNat 12 :: p.1 : Str), p.2)) =
                        some (Char.ofNat 12 :: v', rest)
                  rw [ih f rest hlen]
                  rfl
              · by_cases h7 : c = '\r'
                · subst h7
                  cases fuel with
                  | zero => simp at h
                  | succ f =>
                    have hlen : (escapeStr v').length < f := by
                      rw [hesc, List.length_append] at h
                      simp [escChar] at h
                      omega
                    show (parseStringBodyF f (escapeStr v' ++ '\"' :: rest)).map
                        (fun p => (('\r' :: p.1 : Str), p.2)) = some ('\r' :: v', rest)
                    rw [ih f rest hlen]
                    rfl
                · by_cases h8 : c.toNat < 32
                  · have hescc : escChar c =
                        ['\\', 'u', '0', '0', hexChar (c.toNat / 16), hexChar (c.toNat % 16)] := by
                      simp [escChar, h1, h2, h3, h4, h5, h6, h7, h8]
                    cases fuel with
                    | zero => simp at h
                    | succ f =>
                      have hlen : (escapeStr v').length < f := by
                        rw [hesc, List.length_append, hescc] at h
                        simp at h
                        omega
                      rw [hesc, hescc]
                      show (match hexDigitVal '0', hexDigitVal '0',
                          hexDigitVal (hexChar (c.toNat / 16)),
                          hexDigitVal (hexChar (c.toNat % 16)) with
                        | some a, some b, some c3, some d =>
                          let n := ((a * 16 + b) * 16 + c3) * 16 + d
                          if n.isValidChar then
                            (parseStringBodyF f (escapeStr v' ++ '\"' :: rest)).map
                              (fun p => (Char.ofNat n :: p.1, p.2))
                          else none
                        | _, _, _, _ => none) = some (c :: v', rest)
                      rw [hexDigitVal_hexChar (c.toNat / 16) (by omega),
                        hexDigitVal_hexChar (c.toNat % 16) (by omega)]
                      show (let n := ((0 * 16 + 0) * 16 + c.toNat / 16) * 16 + c.toNat % 16
                        if n.isValidChar then
                          (parseStringBodyF f (escapeStr v' ++ '\"' :: rest)).map
                            (fun p => (Char.ofNat n :: p.1, p.2))
                        else none) = some (c :: v', rest)
                      have hn : ((0 * 16 + 0) * 16 + c.toNat / 16) * 16 + c.toNat % 16 =
                          c.toNat := by omega
                      simp only [hn]
                      rw [if_pos (Or.inl (by omega : c.toNat < 55296))]
                      rw [ih f rest hlen]
                      simp [Char.ofNat_toNat]
                  · have hescc : escChar c = [c] := by
                      simp [escChar, h1, h2, h3, h4, h5, h6, h7, h8]
                    cases fuel with
                    | zero => simp at h
                    | succ f =>
                      have hlen : (escapeStr v').length < f := by
                        rw [hesc, List.length_append, hescc] at h
                        simp at h
                        omega
                      rw [hesc, hescc]
                      show parseStringBodyF (f + 1) (c :: (escapeStr v' ++ '\"' :: rest)) =
                        some (c :: v', rest)
                      simp only [parseStringBodyF]
                      rw [if_neg h1, if_neg h2, if_neg (by omega : ¬ c.toNat < 32)]
                      rw [ih f rest hlen]
                      rfl

/-- `parseStringBody` inverts `JSON.stringify`'s string escaping. -/
theorem parseStringBody_escape (v rest : Str) :
    parseStringBody (escapeStr v ++ '\"' :: rest) = some (v, rest) := by
  apply parseStringBodyF_escape
  simp [List.length_append]
  omega

/-! ### Round-trip: the serialized envelope -/

theorem parseStringBody_expirationKey (rest : Str) :
    parseStringBody (expirationKey ++ '\"' :: rest) = some (expirationKey, rest) := by
  have h : escapeStr expirationKey = expirationKey := rfl
  conv_lhs => rw [← h]
  exact parseStringBody_escape expirationKey rest

theorem parseStringBody_dataKey (rest : Str) :
    parseStringBody (dataKey ++ '\"' :: rest) = some (dataKey, rest) := by
  have h : escapeStr dataKey = dataKey := rfl
  conv_lhs => rw [← h]
  exact parseStringBody_escape dataKey rest

theorem parseVal_renderExpiration (g : Nat) (e : Option JsNumber) (T : Str) :
    parseVal (g + 1) (renderExpiration e ++ ',' :: T) =
      some (expirationJVal e, ',' :: T) := by
  match e with
  | none => rfl
  | some .nan => rfl
  | some (.fin t) =>
    show parseVal (g + 1) (renderInt t ++ ',' :: T) = some (.num t, ',' :: T)
    by_cases hneg : t < 0
    · rw [show (renderInt t ++ ',' :: T : Str) =
        '-' :: (renderNat t.natAbs ++ ',' :: T) from by simp [renderInt, hneg]]
      show (parseJsonNumber ('-' :: (renderNat t.natAbs ++ ',' :: T))).map
          (fun p => (JVal.num p.1, p.2)) = some (.num t, ',' :: T)
      rw [show ('-' :: (renderNat t.natAbs ++ ',' :: T) : Str) =
        renderInt t ++ ',' :: T from by simp [renderInt, hneg]]
      rw [parseJsonNumber_renderInt t T]
      rfl
    · obtain ⟨c, cs, hc, hlo, hhi⟩ := renderNatF_cons (t.natAbs + 1) t.natAbs (by omega)
      have hrw : (renderInt t ++ ',' :: T : Str) = c :: (cs ++ ',' :: T) := by
        simp [renderInt, hneg, renderNat, hc]
      rw [hrw]
      obtain ⟨hws, hn, ht, hf, hq, hb, hl⟩ :=
        numberHead_route c (by refine ⟨by omega, by omega, by omega, by omega⟩)
      simp only [parseVal]
      rw [skipWs_cons c _ hws]
      simp only [if_neg hn, if_neg ht, if_neg hf, if_neg hq, if_neg hb, if_neg hl]
      rw [← List.cons_append, ← hc, ← renderNat,
        show (renderNat t.natAbs ++ ',' :: T : Str) = renderInt t ++ ',' :: T from by
          simp [renderInt, hneg]]
      rw [parseJsonNumber_renderInt t T]
      rfl

theorem parseVal_string (g : Nat) (v rest : Str) :
    parseVal (g + 1) ('\"' :: (escapeStr v ++ '\"' :: rest)) =
      some (JVal.str v, rest) := by
  simp only [parseVal]
  rw [skipWs_cons '\"' _ (by decide)]
  simp only [if_true]
  rw [parseStringBody_escape]
  rfl

theorem parseObjItems_envelope (f : Nat) (e : Option JsNumber) (v : Str) :
    parseObjItems (f + 3)
      ('\"' :: (expirationKey ++ '\"' :: ':' ::
        (renderExpiration e ++ ',' :: '\"' ::
          (dataKey ++ '\"' :: ':' :: '\"' ::
            (escapeStr v ++ '\"' :: [rbraceChar]))))) =
      some ([(expirationKey, expirationJVal e), (dataKey, JVal.str v)], []) := by
  simp only [parseObjItems]
  rw [skipWs_cons '\"' _ (by decide)]
  simp only [if_true]
  rw [parseStringBody_expirationKey]
  simp only []
  rw [skipWs_cons ':' _ (by decide)]
  simp only [if_true]
  rw [show f + 2 = f + 1 + 1 from rfl]
  rw [parseVal_renderExpiration (f + 1) e _]
  simp only []
  rw [skipWs_cons ',' _ (by decide)]
  simp only [if_true]
  rw [skipWs_cons '\"' _ (by decide)]
  simp only [if_true]
  rw [parseStringBody_dataKey]
  simp only []
  rw [skipWs_cons ':' _ (by decide)]
  simp only [if_true]
  rw [parseVal_string f v [rbraceChar]]
  simp only []
  rw [show skipWs [rbraceChar] = [rbraceChar] from rfl]
  simp only []
  rw [if_neg (by decide : ¬ rbraceChar = ',')]
  simp only [if_true]
  rfl

theorem parseVal_envelope (f : Nat) (e : Option JsNumber) (v : Str) :
    parseVal (f + 4) (serializeEnvelope e v) =
      some (JVal.obj [(expirationKey, expirationJVal e), (dataKey, JVal.str v)], []) := by
  have hser : serializeEnvelope e v =
      lbraceChar :: '\"' :: (expirationKey ++ '\"' :: ':' ::
        (renderExpiration e ++ ',' :: '\"' ::
          (dataKey ++ '\"' :: ':' :: '\"' ::
            (escapeStr v ++ '\"' :: [rbraceChar])))) := by
    simp [serializeEnvelope, List.cons_append, List.append_assoc]
  rw [hser]
  simp only [parseVal]
  rw [skipWs_cons lbraceChar _ (by decide)]
  simp only [if_true]
  rw [skipWs_cons '\"' _ (by decide)]
  simp only []
  rw [if_neg (by decide : ¬ ('\"' : Char) = rbraceChar)]
  rw [parseObjItems_envelope]
  rfl

theorem parseJson_serializeEnvelope (e : Option JsNumber) (v : Str) :
    parseJson (serializeEnvelope e v) =
      some (JVal.obj [(expirationKey, expirationJVal e), (dataKey, JVal.str v)]) := by
  unfold parseJson
  have hlen3 : 3 ≤ (serializeEnvelope e v).length := by
    simp [serializeEnvelope, List.length_append]
    omega
  have hlen : (serializeEnvelope e v).length + 1 =
      ((serializeEnvelope e v).length - 3) + 4 := by omega
  rw [hlen, parseVal_envelope]
  rfl

/-! ### Storage-area lemmas -/

theorem getItem_cons_pos (p : Str × Str) (rest : StorageArea) (k : Str) (h : p.1 = k) :
    StorageArea.getItem (p :: rest) k = some p.2 := by
  simp [StorageArea.getItem, List.find?, h]

theorem getItem_cons_neg (p : Str × Str) (rest : StorageArea) (k : Str) (h : ¬ p.1 = k) :
    StorageArea.getItem (p :: rest) k = StorageArea.getItem rest k := by
  simp [StorageArea.getItem, List.find?, h]

theorem getItem_setItem_self (a : StorageArea) (k v : Str) :
    (a.setItem k v).getItem k = some v := by
  induction a with
  | nil => simp [StorageArea.setItem, StorageArea.getItem, List.find?]
  | cons p rest ih =>
    by_cases hp : p.1 = k
    · simp only [StorageArea.setItem, if_pos hp]
      exact getItem_cons_pos (k, v) rest k rfl
    · simp only [StorageArea.setItem, if_neg hp]
      rw [getItem_cons_neg p _ k hp]
      exact ih

theorem getItem_setItem_ne (a : StorageArea) (k v k' : Str) (h : ¬ k' = k) :
    (a.setItem k v).getItem k' = a.getItem k' := by
  induction a with
  | nil =>
    simp [StorageArea.setItem, StorageArea.getItem, List.find?,
      show ¬ k = k' from fun hc => h hc.symm]
  | cons p rest ih =>
    by_cases hp : p.1 = k
    · simp only [StorageArea.setItem, if_pos hp]
      have h1 : ¬ (k, v).1 = k' := fun hc => h hc.symm
      have h2 : ¬ p.1 = k' := by rw [hp]; exact fun hc => h hc.symm
      rw [getItem_cons_neg _ _ _ h1, getItem_cons_neg _ _ _ h2]
    · simp only [StorageArea.setItem, if_neg hp]
      by_cases hpq : p.1 = k'
      · rw [getItem_cons_pos _ _ _ hpq, getItem_cons_pos _ _ _ hpq]
      · rw [getItem_cons_neg _ _ _ hpq, getItem_cons_neg _ _ _ hpq]
        exact ih

theorem mem_keys_setItem (a : StorageArea) (k v k' : Str) :
    k' ∈ (a.setItem k v).keys ↔ k' ∈ a.keys ∨ k' = k := by
  induction a with
  | nil => simp [StorageArea.setItem, StorageArea.keys]
  | cons p rest ih =>
    by_cases hp : p.1 = k
    · simp only [StorageArea.setItem, if_pos hp, StorageArea.keys, List.map_cons,
        List.mem_cons] at ih ⊢
      rw [hp]
      tauto
    · simp only [StorageArea.setItem, if_neg hp, StorageArea.keys, List.map_cons,
        List.mem_cons] at ih ⊢
      rw [ih]
      tauto

theorem WF_setItem (a : StorageArea) (k v : Str) (h : a.WF) :
    (a.setItem k v).WF := by
  unfold StorageArea.WF at h ⊢
  induction a with
  | nil => simp [StorageArea.setItem, StorageArea.keys]
  | cons p rest ih =>
    simp only [StorageArea.keys, List.map_cons, List.nodup_cons] at h
    by_cases hp : p.1 = k
    · simp only [StorageArea.setItem, if_pos hp, StorageArea.keys, List.map_cons,
        List.nodup_cons]
      rw [← hp]
      exact h
    · simp only [StorageArea.setItem, if_neg hp, StorageArea.keys, List.map_cons,
        List.nodup_cons]
      constructor
      · intro hmem
        rw [show (StorageArea.setItem rest k v).map (fun p => p.1) =
            (StorageArea.setItem rest k v).keys from rfl] at hmem
        rcases (mem_keys_setItem rest k v p.1).mp hmem with hin | heq
        · exact h.1 hin
        · exact hp heq
      · exact ih h.2

theorem removeItem_cons_pos (p : Str × Str) (rest : StorageArea) (k : Str) (h : p.1 = k) :
    StorageArea.removeItem (p :: rest) k = rest.removeItem k := by
  simp [StorageArea.removeItem, List.filter_cons, h]

theorem removeItem_cons_neg (p : Str × Str) (rest : StorageArea) (k : Str) (h : ¬ p.1 = k) :
    StorageArea.removeItem (p :: rest) k = p :: rest.removeItem k := by
  simp [StorageArea.removeItem, List.filter_cons, h]

theorem getItem_removeItem_self (a : StorageArea) (k : Str) :
    (a.removeItem k).getItem k = none := by
  induction a with
  | nil => simp [StorageArea.removeItem, StorageArea.getItem, List.find?]
  | cons p rest ih =>
    by_cases hp : p.1 = k
    · rw [removeItem_cons_pos _ _ _ hp]
      exact ih
    · rw [removeItem_cons_neg _ _ _ hp, getItem_cons_neg _ _ _ hp]
      exact ih

theorem getItem_removeItem_ne (a : StorageArea) (k k' : Str) (h : ¬ k' = k) :
    (a.removeItem k).getItem k' = a.getItem k' := by
  induction a with
  | nil => simp [StorageArea.removeItem, StorageArea.getItem]
  | cons p rest ih =>
    by_cases hp : p.1 = k
    · have hpk' : ¬ p.1 = k' := by rw [hp]; exact fun hc => h hc.symm
      rw [removeItem_cons_pos _ _ _ hp, ih, getItem_cons_neg _ _ _ hpk']
    · rw [removeItem_cons_neg _ _ _ hp]
      by_cases hpq : p.1 = k'
      · rw [getItem_cons_pos _ _ _ hpq, getItem_cons_pos _ _ _ hpq]
      · rw [getItem_cons_neg _ _ _ hpq, getItem_cons_neg _ _ _ hpq, ih]

theorem getItem_eq_none_iff (a : StorageArea) (k : Str) :
    a.getItem k = none ↔ ¬ k ∈ a.keys := by
  induction a with
  | nil => simp [StorageArea.getItem, StorageArea.keys, List.find?]
  | cons p rest ih =>
    by_cases hp : p.1 = k
    · rw [getItem_cons_pos _ _ _ hp]
      simp [StorageArea.keys, hp.symm]
    · rw [getItem_cons_neg _ _ _ hp]
      simp only [StorageArea.keys, List.map_cons, List.mem_cons] at ih ⊢
      rw [ih]
      constructor
      · intro hn
        rintro (hc | hc)
        · exact hp hc.symm
        · exact hn hc
      · intro hn hc
        exact hn (Or.inr hc)

/-! ### The expiration sweep, entry by entry -/

theorem expireStep_getItem_ne (now : Int) (st : StorageArea) (key k : Str)
    (h : ¬ k = key) :
    (expireStep now st key).getItem k = st.getItem k := by
  unfold expireStep
  cases hst : st.getItem key with
  | none => rfl
  | some v =>
    by_cases hr : shouldRemove now v
    · simp [hr, getItem_removeItem_ne st key k h]
    · simp [hr]

theorem expireStep_getItem_self (now : Int) (st : StorageArea) (key : Str) :
    (expireStep now st key).getItem key =
      match st.getItem key with
      | none => none
      | some v => if shouldRemove now v then none else some v := by
  unfold expireStep
  cases hst : st.getItem key with
  | none => simp [hst]
  | some v =>
    by_cases hr : shouldRemove now v
    · simp [hst, hr, getItem_removeItem_self]
    · simp [hst, hr]

theorem foldl_expireStep_notmem (now : Int) (ks : List Str) (st : StorageArea)
    (k : Str) (h : ¬ k ∈ ks) :
    (ks.foldl (expireStep now) st).getItem k = st.getItem k := by
  induction ks generalizing st with
  | nil => rfl
  | cons key rest ih =>
    simp only [List.foldl_cons]
    have h1 : ¬ k ∈ rest := fun hc => h (List.mem_cons_of_mem _ hc)
    have h2 : ¬ k = key := fun hc => h (by rw [hc]; exact List.mem_cons_self _ _)
    rw [ih _ h1, expireStep_getItem_ne now st key k h2]

/-- The net effect of the `expire` sweep on any single key: with distinct
keys in the area, an entry is removed iff its own stored text says so,
and untouched entries keep their exact stored text. -/
theorem expireWebStorage_getItem (now : Int) (area : StorageArea) (k : Str)
    (h : area.WF) :
    (expireWebStorage now area).getItem k =
      match area.getItem k with
      | none => none
      | some v => if shouldRemove now v then none else some v := by
  unfold expireWebStorage
  by_cases hm : k ∈ area.keys
  · obtain ⟨l1, l2, hsplit⟩ := List.append_of_mem hm
    unfold StorageArea.WF at h
    rw [hsplit] at h
    rw [List.nodup_append] at h
    have hk2 : ¬ k ∈ l2 := by
      have := h.2.1
      rw [List.nodup_cons] at this
      exact this.1
    have hk1 : ¬ k ∈ l1 := fun hc => h.2.2 hc (List.mem_cons_self _ _)
    rw [hsplit, List.foldl_append, List.foldl_cons]
    rw [foldl_expireStep_notmem now l2 _ k hk2]
    rw [expireStep_getItem_self]
    rw [foldl_expireStep_notmem now l1 area k hk1]
  · rw [foldl_expireStep_notmem now area.keys area k hm]
    rw [(getItem_eq_none_iff area k).mpr hm]

/-! ### Behavior of the backend operations on envelopes -/

theorem shouldRemove_envelope_null (now : Int) (v : Str) :
    shouldRemove now (serializeEnvelope none v) = false := by
  unfold shouldRemove
  rw [parseJson_serializeEnvelope]
  rfl

theorem shouldRemove_envelope_nan (now : Int) (v : Str) :
    shouldRemove now (serializeEnvelope (some .nan) v) = false := by
  unfold shouldRemove
  rw [parseJson_serializeEnvelope]
  rfl

theorem shouldRemove_envelope_fin (now t : Int) (v : Str) :
    shouldRemove now (serializeEnvelope (some (.fin t)) v) = decide (now > t) := by
  unfold shouldRemove
  rw [parseJson_serializeEnvelope]
  rfl

theorem getWebStorage_envelope (area : StorageArea) (key v : Str)
    (e : Option JsNumber) (h : area.getItem key = some (serializeEnvelope e v)) :
    getWebStorage area key = some (JVal.str v) := by
  unfold getWebStorage
  rw [h]
  simp only []
  rw [parseJson_serializeEnvelope]
  rfl

theorem splitSemi_no_semi (a : Str) (h : ¬ ';' ∈ a) : splitSemi a = [a] := by
  induction a with
  | nil => rfl
  | cons c cs ih =>
    have hc : ¬ c = ';' := fun hc => h (by rw [hc]; exact List.mem_cons_self _ _)
    have hcs : ¬ ';' ∈ cs := fun hm => h (List.mem_cons_of_mem _ hm)
    simp only [splitSemi, if_neg hc, ih hcs]

theorem splitSemi_append_semi (a b : Str) (h : ¬ ';' ∈ a) :
    splitSemi (a ++ ';' :: b) = a :: splitSemi b := by
  induction a with
  | nil => simp [splitSemi]
  | cons c cs ih =>
    have hc : ¬ c = ';' := fun hc => h (by rw [hc]; exact List.mem_cons_self _ _)
    have hcs : ¬ ';' ∈ cs := fun hm => h (List.mem_cons_of_mem _ hm)
    simp only [List.cons_append, splitSemi, if_neg hc, List.append_eq]
    rw [ih hcs]

theorem dropWhile_spaces_replicate (m : Nat) (l : Str) :
    List.dropWhile (fun ch => ch = ' ') (List.replicate m ' ' ++ l) =
      List.dropWhile (fun ch => ch = ' ') l := by
  induction m with
  | zero => simp
  | succ m ih => simpa [List.replicate_succ, List.dropWhile] using ih

theorem dropWhile_spaces_pair (n w : Str) (hn : ¬ ' ' ∈ n) :
    List.dropWhile (fun ch => ch = ' ') (n ++ '=' :: w) = n ++ '=' :: w := by
  cases n with
  | nil => simp [List.dropWhile]
  | cons c n' =>
    have hc : ¬ c = ' ' := fun hc => hn (by rw [hc]; exact List.mem_cons_self _ _)
    simp [List.dropWhile, hc]

theorem isPrefixOf_nil_false (p : Str) (h : ¬ p = []) :
    p.isPrefixOf ([] : Str) = false := by
  cases p with
  | nil => exact absurd rfl h
  | cons c cs => rfl

theorem key_isPrefixOf_pair (k : Str) (hk : ¬ '=' ∈ k) :
    ∀ (n : Str), ¬ '=' ∈ n → ∀ (w : Str),
      ((k ++ ['=']).isPrefixOf (n ++ '=' :: w) = true ↔ k = n) := by
  induction k with
  | nil =>
    intro n hn w
    cases n with
    | nil => simp [List.isPrefixOf]
    | cons d n' =>
      have hd : ¬ '=' = d := fun hc => hn (by rw [← hc]; exact List.mem_cons_self _ _)
      simp only [List.nil_append, List.cons_append, List.isPrefixOf]
      constructor
      · intro hb
        simp only [Bool.and_eq_true, beq_iff_eq] at hb
        exact absurd hb.1 hd
      · intro hc
        exact absurd hc (by simp)
  | cons c k' ih =>
    intro n hn w
    have hk' : ¬ '=' ∈ k' := fun hm => hk (List.mem_cons_of_mem _ hm)
    have hc : ¬ c = '=' := fun hc => hk (by rw [← hc]; exact List.mem_cons_self _ _)
    cases n with
    | nil =>
      simp only [List.cons_append, List.nil_append, List.isPrefixOf]
      constructor
      · intro hb
        simp only [Bool.and_eq_true, beq_iff_eq] at hb
        exact absurd hb.1 hc
      · intro hceq
        exact absurd hceq (by simp)
    | cons d n' =>
      have hn' : ¬ '=' ∈ n' := fun hm => hn (List.mem_cons_of_mem _ hm)
      simp only [List.cons_append, List.isPrefixOf, Bool.and_eq_true, beq_iff_eq,
        List.append_eq]
      rw [ih hk' n' hn' w]
      constructor
      · rintro ⟨rfl, rfl⟩; rfl
      · intro hceq
        injection hceq with h1 h2
        exact ⟨h1, h2⟩


theorem getCookieScan_read (k : Str) (hk : ¬ '=' ∈ k) :
    ∀ (jar : CookieJar), CookieJarOk jar → ∀ (m : Nat),
      getCookieScan (k ++ ['='])
        (splitSemi (List.replicate m ' ' ++ cookieJarRead jar)) =
        specGetCookie jar k := by
  intro jar
  induction jar with
  | nil =>
    intro _ m
    rw [show cookieJarRead [] = [] from rfl, List.append_nil]
    rw [splitSemi_no_semi _ (by simp [List.mem_replicate])]
    simp only [getCookieScan]
    rw [show List.dropWhile (fun ch => ch = ' ') (List.replicate m ' ') =
        List.dropWhile (fun ch => ch = ' ') ([] : Str) by
      have := dropWhile_spaces_replicate m []
      simpa using this]
    simp only [List.dropWhile]
    rw [isPrefixOf_nil_false _ (by simp)]
    simp [specGetCookie]
  | cons p rest ih =>
    intro hok m
    obtain ⟨n, w⟩ := p
    have hpok := hok (n, w) (List.mem_cons_self _ _)
    have hrok : CookieJarOk rest := fun q hq => hok q (List.mem_cons_of_mem _ hq)
    obtain ⟨⟨hnsemi, hneq, hnsp⟩, hwsemi⟩ := hpok
    have hpair_nosemi : ¬ ';' ∈ List.replicate m ' ' ++ (n ++ '=' :: w) := by
      intro hm
      simp only [List.mem_append, List.mem_replicate, List.mem_cons] at hm
      rcases hm with hm | hm | hm | hm
      · exact absurd hm.2 (by decide)
      · exact hnsemi hm
      · exact absurd hm (by decide)
      · exact hwsemi hm
    have htrim : List.dropWhile (fun ch => ch = ' ')
        (List.replicate m ' ' ++ (n ++ '=' :: w)) = n ++ '=' :: w := by
      rw [dropWhile_spaces_replicate, dropWhile_spaces_pair n w hnsp]
    cases rest with
    | nil =>
      rw [show cookieJarRead [(n, w)] = n ++ '=' :: w from by
        simp [cookieJarRead, cookieJarReadRest]]
      rw [splitSemi_no_semi _ hpair_nosemi]
      simp only [getCookieScan, htrim]
      by_cases hkey : k = n
      · rw [if_pos (by rw [key_isPrefixOf_pair k hk n hneq w]; exact hkey)]
        rw [hkey]
        rw [show (n ++ '=' :: w : Str) = (n ++ ['=']) ++ w by simp]
        rw [List.drop_left]
        simp [specGetCookie, List.find?]
      · rw [if_neg (by rw [key_isPrefixOf_pair k hk n hneq w]; exact hkey)]
        simp [getCookieScan, specGetCookie, List.find?,
          show ¬ n = k from fun hc => hkey hc.symm]
    | cons q rest' =>
      rw [show cookieJarRead ((n, w) :: q :: rest') =
          n ++ '=' :: w ++ ';' :: ' ' :: cookieJarRead (q :: rest') from by
        simp [cookieJarRead, cookieJarReadRest]]
      rw [show (List.replicate m ' ' ++
            (n ++ '=' :: w ++ ';' :: ' ' :: cookieJarRead (q :: rest')) : Str) =
          (List.replicate m ' ' ++ (n ++ '=' :: w)) ++
            ';' :: (List.replicate 1 ' ' ++ cookieJarRead (q :: rest')) by
        simp]
      rw [splitSemi_append_semi _ _ hpair_nosemi]
      simp only [getCookieScan, htrim]
      by_cases hkey : k = n
      · rw [if_pos (by rw [key_isPrefixOf_pair k hk n hneq w]; exact hkey)]
        rw [hkey]
        rw [show (n ++ '=' :: w : Str) = (n ++ ['=']) ++ w by simp]
        rw [List.drop_left]
        simp [specGetCookie, List.find?]
      · rw [if_neg (by rw [key_isPrefixOf_pair k hk n hneq w]; exact hkey)]
        rw [ih hrok 1]
        simp [specGetCookie, List.find?, show ¬ n = k from fun hc => hkey hc.symm]

/-- `getCookie` over a rendered well-formed jar computes first-match
lookup by cookie name. -/
theorem getCookie_jar (jar : CookieJar) (k : Str) (hok : CookieJarOk jar)
    (hk : ¬ '=' ∈ k) :
    getCookie (cookieJarRead jar) k = specGetCookie jar k := by
  have h := getCookieScan_read k hk jar hok 0
  simpa [getCookie] using h

theorem takeWhile_no_semi (l : Str) (h : ¬ ';' ∈ l) :
    l.takeWhile (fun c => ¬ c = ';') = l := by
  induction l with
  | nil => rfl
  | cons c cs ih =>
    have hc : ¬ c = ';' := fun hc => h (by rw [hc]; exact List.mem_cons_self _ _)
    have hcs : ¬ ';' ∈ cs := fun hm => h (List.mem_cons_of_mem _ hm)
    simp only [List.takeWhile_cons]
    rw [if_pos (by simp [hc])]
    rw [ih hcs]

theorem takeWhile_key (k v : Str) (hk : ¬ '=' ∈ k) :
    (k ++ '=' :: v).takeWhile (fun c => ¬ c = '=') = k := by
  induction k with
  | nil => simp [List.takeWhile_cons]
  | cons c k' ih =>
    have hc : ¬ c = '=' := fun hc => hk (by rw [← hc]; exact List.mem_cons_self _ _)
    have hk' : ¬ '=' ∈ k' := fun hm => hk (List.mem_cons_of_mem _ hm)
    simp only [List.cons_append, List.takeWhile_cons]
    rw [if_pos (by simp [hc])]
    rw [ih hk']

theorem dropWhile_key (k v : Str) (hk : ¬ '=' ∈ k) :
    (k ++ '=' :: v).dropWhile (fun c => ¬ c = '=') = '=' :: v := by
  induction k with
  | nil => simp [List.dropWhile]
  | cons c k' ih =>
    have hc : ¬ c = '=' := fun hc => hk (by rw [← hc]; exact List.mem_cons_self _ _)
    have hk' : ¬ '=' ∈ k' := fun hm => hk (List.mem_cons_of_mem _ hm)
    simp only [List.cons_append, List.dropWhile_cons]
    rw [if_pos (by simp [hc])]
    exact ih hk'

theorem any_eq_key (k v : Str) : (k ++ '=' :: v).any (fun c => c = '=') = true := by
  simp [List.any_append]

/-- Writing `key=value` (no attributes) into the jar stores exactly that
pair, when key and value contain no cookie metacharacters. -/
theorem cookieJarWrite_pair (jar : CookieJar) (k v : Str)
    (hksemi : ¬ ';' ∈ k) (hkeq : ¬ '=' ∈ k) (hvsemi : ¬ ';' ∈ v) :
    cookieJarWrite jar (k ++ '=' :: v) = StorageArea.setItem jar k v := by
  have hnos : ¬ ';' ∈ (k ++ '=' :: v) := by
    intro hm
    simp only [List.mem_append, List.mem_cons] at hm
    rcases hm with hm | hm | hm
    · exact hksemi hm
    · exact absurd hm (by decide)
    · exact hvsemi hm
  unfold cookieJarWrite
  rw [takeWhile_no_semi _ hnos]
  rw [if_pos (any_eq_key k v)]
  rw [takeWhile_key k v hkeq, dropWhile_key k v hkeq]
  rfl

/-- `setCookie` with no duration writes the bare `key=value` cookie. -/
theorem setCookie_noDuration (o : Options) (now : Int) (jar : CookieJar) (k v : Str)
    (hksemi : ¬ ';' ∈ k) (hkeq : ¬ '=' ∈ k) (hvsemi : ¬ ';' ∈ v) :
    setCookie o now jar k v .undefined = StorageArea.setItem jar k v := by
  unfold setCookie
  rw [show calculateExpirationTime o now .undefined = none from rfl]
  simp only [List.append_nil]
  exact cookieJarWrite_pair jar k v hksemi hkeq hvsemi

theorem mem_setItem (jar : CookieJar) (k v : Str) (p : Str × Str)
    (h : p ∈ StorageArea.setItem jar k v) : p ∈ jar ∨ p = (k, v) := by
  induction jar with
  | nil => simpa [StorageArea.setItem] using h
  | cons q rest ih =>
    by_cases hq : q.1 = k
    · simp only [StorageArea.setItem, if_pos hq, List.mem_cons] at h
      rcases h with h | h
      · exact Or.inr h
      · exact Or.inl (List.mem_cons_of_mem _ h)
    · simp only [StorageArea.setItem, if_neg hq, List.mem_cons] at h
      rcases h with h | h
      · exact Or.inl (by rw [h]; exact List.mem_cons_self _ _)
      · rcases ih h with h' | h'
        · exact Or.inl (List.mem_cons_of_mem _ h')
        · exact Or.inr h'

theorem CookieJarOk_setItem (jar : CookieJar) (k v : Str) (hok : CookieJarOk jar)
    (hk : CookieNameOk k) (hv : CookieValueOk v) :
    CookieJarOk (StorageArea.setItem jar k v) := by
  intro p hp
  rcases mem_setItem jar k v p hp with h | h
  · exact hok p h
  · rw [h]; exact ⟨hk, hv⟩

theorem specGetCookie_setItem_self (jar : CookieJar) (k v : Str) :
    specGetCookie (StorageArea.setItem jar k v) k = some v := by
  induction jar with
  | nil => simp [StorageArea.setItem, specGetCookie, List.find?]
  | cons q rest ih =>
    by_cases hq : q.1 = k
    · simp [StorageArea.setItem, hq, specGetCookie, List.find?]
    · simp only [StorageArea.setItem, if_neg hq]
      simpa [specGetCookie, List.find?, hq] using ih

theorem mech_put (o : Options) (w : World) (a : StorageArea) :
    getWebStorageMechanism o (putWebStorageMechanism o w a) = a := by
  unfold getWebStorageMechanism putWebStorageMechanism
  cases hw : webStorageShouldPersist o <;> simp [hw]

/-! ### The claims -/

/-- C1: on the structured-storage backend, after `set(k, v, d)` at time
`t0` the stored expiration timestamp equals `t0 + d*multiplier`; an
`expire()` strictly before that instant does not remove `k` (the stored
envelope survives verbatim), and an `expire()` strictly after it
removes `k`. -/
theorem claim_c1 (o : Options) (m t0 d now : Int) (area : StorageArea) (k v : Str)
    (hm : getExpirationMultiplier o = .fin m) (hwf : area.WF) :
    calculateExpirationTime o t0 (.num (.fin d)) = some (.fin (t0 + d * m)) ∧
    (now < t0 + d * m →
      (expireWebStorage now (setWebStorage o t0 area k v (.num (.fin d)))).getItem k =
        some (serializeEnvelope (some (.fin (t0 + d * m))) v)) ∧
    (now > t0 + d * m →
      (expireWebStorage now (setWebStorage o t0 area k v (.num (.fin d)))).getItem k =
        none) := by
  have hcalc : calculateExpirationTime o t0 (.num (.fin d)) =
      some (.fin (t0 + d * m)) := by
    simp [calculateExpirationTime, hm, JsNumber.mul, JsNumber.add]
  have harea : setWebStorage o t0 area k v (.num (.fin d)) =
      area.setItem k (serializeEnvelope (some (.fin (t0 + d * m))) v) := by
    unfold setWebStorage
    rw [hcalc]
  have hwf' := WF_setItem area k (serializeEnvelope (some (.fin (t0 + d * m))) v) hwf
  refine ⟨hcalc, ?_, ?_⟩
  · intro hlt
    rw [harea, expireWebStorage_getItem now _ k hwf', getItem_setItem_self]
    simp only []
    rw [shouldRemove_envelope_fin]
    simp [show ¬ now > t0 + d * m by omega]
  · intro hgt
    rw [harea, expireWebStorage_getItem now _ k hwf', getItem_setItem_self]
    simp only []
    rw [shouldRemove_envelope_fin]
    simp [hgt]

theorem claim_c1_witness :
    getExpirationMultiplier ⟨false, false, none⟩ = .fin 1 ∧
    StorageArea.WF [] ∧
    (calculateExpirationTime ⟨false, false, none⟩ 0 (.num (.fin 100)) =
        some (.fin (0 + 100 * 1)) ∧
      ((50 : Int) < 0 + 100 * 1 →
        (expireWebStorage 50 (setWebStorage ⟨false, false, none⟩ 0 [] ['k'] ['h']
          (.num (.fin 100)))).getItem ['k'] =
          some (serializeEnvelope (some (.fin (0 + 100 * 1))) ['h'])) ∧
      ((50 : Int) > 0 + 100 * 1 →
        (expireWebStorage 50 (setWebStorage ⟨false, false, none⟩ 0 [] ['k'] ['h']
          (.num (.fin 100)))).getItem ['k'] = none)) :=
  ⟨by decide, by simp [StorageArea.WF, StorageArea.keys],
    claim_c1 ⟨false, false, none⟩ 1 0 100 50 [] ['k'] ['h'] (by decide)
      (by simp [StorageArea.WF, StorageArea.keys])⟩

/-- C3: construction binds the structured-storage methods iff
`forceCookies` is false and structured storage is available; in every
other case the cookie methods are bound.  `constructBackend` is a pure
function of the construction-time inputs alone, so the choice is fixed
for the Store's lifetime. -/
theorem claim_c3 (o : Options) (storageSupported : Bool) :
    (constructBackend o storageSupported = .webStorage ↔
      (o.forceCookies = false ∧ storageSupported = true)) ∧
    (constructBackend o storageSupported = .cookie ↔
      ¬ (o.forceCookies = false ∧ storageSupported = true)) := by
  obtain ⟨fc, p, em⟩ := o
  cases fc <;> cases storageSupported <;>
    simp [constructBackend, shouldCookiesBeForced]

/-- C4: `set(k, v)` with no duration stores an envelope whose
expiration field is null, and `expire()` at any later time never
removes `k`. -/
theorem claim_c4 (o : Options) (t0 now : Int) (area : StorageArea) (k v : Str)
    (hwf : area.WF) :
    calculateExpirationTime o t0 .undefined = none ∧
    (expireWebStorage now (setWebStorage o t0 area k v .undefined)).getItem k =
      some (serializeEnvelope none v) := by
  refine ⟨rfl, ?_⟩
  have harea : setWebStorage o t0 area k v .undefined =
      area.setItem k (serializeEnvelope none v) := rfl
  rw [harea, expireWebStorage_getItem now _ k
    (WF_setItem area k (serializeEnvelope none v) hwf), getItem_setItem_self]
  simp only []
  rw [shouldRemove_envelope_null]
  simp

theorem claim_c4_witness :
    StorageArea.WF [] ∧
    (calculateExpirationTime ⟨false, false, none⟩ 3 .undefined = none ∧
      (expireWebStorage 1000000 (setWebStorage ⟨false, false, none⟩ 3 [] ['k'] ['h']
        .undefined)).getItem ['k'] = some (serializeEnvelope none ['h'])) :=
  ⟨by simp [StorageArea.WF, StorageArea.keys],
    claim_c4 ⟨false, false, none⟩ 3 1000000 [] ['k'] ['h']
      (by simp [StorageArea.WF, StorageArea.keys])⟩

/-- C6: on the structured-storage backend, `get(k)` returns the
envelope's `data` field for any stored expiration timestamp — the
statement carries no constraint relating the timestamp to any clock, so
in particular it holds when the timestamp is already in the past — and
`get` leaves the world (both storage areas and the cookie jar)
unchanged for every configuration, every world and every key. -/
theorem claim_c6 (o : Options) (w : World) (k v : Str) (T : Int)
    (hget : (getWebStorageMechanism o w).getItem k =
      some (serializeEnvelope (some (.fin T)) v)) :
    storeGet .webStorage o w k = (some (JVal.str v), w) ∧
    ∀ (o' : Options) (w' : World) (k' : Str),
      (storeGet .webStorage o' w' k').2 = w' := by
  constructor
  · unfold storeGet
    rw [getWebStorage_envelope _ _ _ _ hget]
  · intro o' w' k'
    rfl

theorem claim_c6_witness :
    (getWebStorageMechanism ⟨false, false, none⟩
        ⟨[], [(['k'], serializeEnvelope (some (.fin (-5))) ['h'])], []⟩).getItem ['k'] =
      some (serializeEnvelope (some (.fin (-5))) ['h']) ∧
    (storeGet .webStorage ⟨false, false, none⟩
        ⟨[], [(['k'], serializeEnvelope (some (.fin (-5))) ['h'])], []⟩ ['k'] =
      (some (JVal.str ['h']),
        ⟨[], [(['k'], serializeEnvelope (some (.fin (-5))) ['h'])], []⟩) ∧
    ∀ (o' : Options) (w' : World) (k' : Str),
      (storeGet .webStorage o' w' k').2 = w') :=
  ⟨rfl, claim_c6 ⟨false, false, none⟩
    ⟨[], [(['k'], serializeEnvelope (some (.fin (-5))) ['h'])], []⟩ ['k'] ['h'] (-5) rfl⟩

/-- C7: when construction binds the cookie methods, `expire` is the
prototype stub `function() {}`: it changes neither storage area nor the
cookie jar. -/
theorem claim_c7 (o : Options) (storageSupported : Bool) (now : Int) (w : World)
    (h : constructBackend o storageSupported = .cookie) :
    storeExpire (constructBackend o storageSupported) o now w = w := by
  rw [h]
  rfl

theorem claim_c7_witness :
    constructBackend ⟨true, false, none⟩ true = .cookie ∧
    storeExpire (constructBackend ⟨true, false, none⟩ true) ⟨true, false, none⟩ 7
      ⟨[(['a'], ['b'])], [], [(['c'], ['d'])]⟩ =
      ⟨[(['a'], ['b'])], [], [(['c'], ['d'])]⟩ :=
  ⟨rfl, claim_c7 ⟨true, false, none⟩ true 7 ⟨[(['a'], ['b'])], [], [(['c'], ['d'])]⟩ rfl⟩

/-- C9: an entry whose stored expiration timestamp exactly equals the
sweep's current time is retained — removal uses the strict comparison
`now > timestamp`. -/
theorem claim_c9 (now : Int) (area : StorageArea) (k v : Str) (hwf : area.WF)
    (hget : area.getItem k = some (serializeEnvelope (some (.fin now)) v)) :
    (expireWebStorage now area).getItem k =
      some (serializeEnvelope (some (.fin now)) v) := by
  rw [expireWebStorage_getItem now area k hwf, hget]
  simp only []
  rw [shouldRemove_envelope_fin]
  simp

theorem claim_c9_witness :
    StorageArea.WF [(['x'], serializeEnvelope (some (.fin 5)) ['h'])] ∧
    StorageArea.getItem [(['x'], serializeEnvelope (some (.fin 5)) ['h'])] ['x'] =
      some (serializeEnvelope (some (.fin 5)) ['h']) ∧
    (expireWebStorage 5 [(['x'], serializeEnvelope (some (.fin 5)) ['h'])]).getItem ['x'] =
      some (serializeEnvelope (some (.fin 5)) ['h']) :=
  ⟨by simp [StorageArea.WF, StorageArea.keys],
    rfl,
    claim_c9 5 [(['x'], serializeEnvelope (some (.fin 5)) ['h'])] ['x'] ['h']
      (by simp [StorageArea.WF, StorageArea.keys]) rfl⟩

/-- C10: invalid durations never make `set` fail.  A negative finite
duration stores a timestamp strictly before insertion time, so any
sweep strictly after insertion removes the key; a NaN duration yields a
NaN timestamp, which serializes into the envelope exactly like null, so
the entry is never removed by `expire()`. -/
theorem claim_c10 (o : Options) (m t0 d now : Int) (area : StorageArea) (k v : Str)
    (hm : getExpirationMultiplier o = .fin m) (hmpos : 0 < m) (hd : d < 0)
    (hwf : area.WF) :
    calculateExpirationTime o t0 (.num (.fin d)) = some (.fin (t0 + d * m)) ∧
    t0 + d * m < t0 ∧
    (t0 < now →
      (expireWebStorage now (setWebStorage o t0 area k v (.num (.fin d)))).getItem k =
        none) ∧
    calculateExpirationTime o t0 (.num .nan) = some .nan ∧
    serializeEnvelope (some .nan) v = serializeEnvelope none v ∧
    (expireWebStorage now (setWebStorage o t0 area k v (.num .nan))).getItem k =
      some (serializeEnvelope (some .nan) v) := by
  have hcalc : calculateExpirationTime o t0 (.num (.fin d)) =
      some (.fin (t0 + d * m)) := by
    simp [calculateExpirationTime, hm, JsNumber.mul, JsNumber.add]
  have hneg : t0 + d * m < t0 := by
    have := mul_neg_of_neg_of_pos hd hmpos
    omega
  refine ⟨hcalc, hneg, ?_, ?_, rfl, ?_⟩
  · intro hnow
    have harea : setWebStorage o t0 area k v (.num (.fin d)) =
        area.setItem k (serializeEnvelope (some (.fin (t0 + d * m))) v) := by
      unfold setWebStorage
      rw [hcalc]
    rw [harea, expireWebStorage_getItem now _ k
      (WF_setItem area k _ hwf), getItem_setItem_self]
    simp only []
    rw [shouldRemove_envelope_fin]
    simp [show now > t0 + d * m by omega]
  · simp [calculateExpirationTime, hm, JsNumber.mul, JsNumber.add]
  · have harea : setWebStorage o t0 area k v (.num .nan) =
        area.setItem k (serializeEnvelope (some .nan) v) := by
      unfold setWebStorage
      rw [show calculateExpirationTime o t0 (.num .nan) = some .nan from by
        simp [calculateExpirationTime, JsNumber.mul, JsNumber.add]]
    rw [harea, expireWebStorage_getItem now _ k
      (WF_setItem area k _ hwf), getItem_setItem_self]
    simp only []
    rw [shouldRemove_envelope_nan]
    simp

theorem claim_c10_witness :
    getExpirationMultiplier ⟨false, false, none⟩ = .fin 1 ∧ (0 : Int) < 1 ∧
    (-30 : Int) < 0 ∧ StorageArea.WF [] ∧
    (calculateExpirationTime ⟨false, false, none⟩ 10 (.num (.fin (-30))) =
        some (.fin (10 + -30 * 1)) ∧
      10 + -30 * 1 < 10 ∧
      ((10 : Int) < 11 →
        (expireWebStorage 11 (setWebStorage ⟨false, false, none⟩ 10 [] ['k'] ['h']
          (.num (.fin (-30))))).getItem ['k'] = none) ∧
      calculateExpirationTime ⟨false, false, none⟩ 10 (.num .nan) = some .nan ∧
      serializeEnvelope (some .nan) ['h'] = serializeEnvelope none ['h'] ∧
      (expireWebStorage 11 (setWebStorage ⟨false, false, none⟩ 10 [] ['k'] ['h']
        (.num .nan))).getItem ['k'] = some (serializeEnvelope (some .nan) ['h'])) :=
  ⟨by decide, by decide, by decide, by simp [StorageArea.WF, StorageArea.keys],
    claim_c10 ⟨false, false, none⟩ 1 10 (-30) 11 [] ['k'] ['h'] (by decide) (by decide)
      (by decide) (by simp [StorageArea.WF, StorageArea.keys])⟩

/-- C2 counterexample: on the cookie backend the round-trip fails for a
value containing a semicolon — `set("k", "a;b")` then `get("k")`
returns `"a"`, because the cookie collaborator truncates the written
value at the first `;`. -/
theorem claim_c2_counterexample :
    (storeGet .cookie ⟨true, false, none⟩
        (storeSet .cookie ⟨true, false, none⟩ 0 ⟨[], [], []⟩ ['k'] ['a', ';', 'b'] .undefined)
        ['k']).1 ≠
      some (JVal.str ['a', ';', 'b']) := by
  intro h
  have heq : (storeGet .cookie ⟨true, false, none⟩
      (storeSet .cookie ⟨true, false, none⟩ 0 ⟨[], [], []⟩ ['k'] ['a', ';', 'b'] .undefined)
      ['k']).1 = some (JVal.str ['a']) := rfl
  rw [heq] at h
  simp at h

/-- C2 (amended): `set(k, v)` followed by `get(k)` returns `v` — on the
structured-storage backend for all string keys and values
unconditionally, and on the cookie backend whenever the key and value
are free of cookie metacharacters (no `;` in either, no `=` or space in
the key) and the jar is well-formed. -/
theorem claim_c2_amended (o : Options) (now : Int) (w : World) (k v : Str) :
    (storeGet .webStorage o (storeSet .webStorage o now w k v .undefined) k).1 =
      some (JVal.str v) ∧
    (CookieJarOk w.cookie → ¬ ';' ∈ k → ¬ '=' ∈ k → ¬ ' ' ∈ k → ¬ ';' ∈ v →
      (storeGet .cookie o (storeSet .cookie o now w k v .undefined) k).1 =
        some (JVal.str v)) := by
  constructor
  · show getWebStorage
      (getWebStorageMechanism o (putWebStorageMechanism o w
        (setWebStorage o now (getWebStorageMechanism o w) k v .undefined))) k =
      some (JVal.str v)
    rw [mech_put]
    exact getWebStorage_envelope _ _ _ _
      (by rw [show setWebStorage o now (getWebStorageMechanism o w) k v .undefined =
          (getWebStorageMechanism o w).setItem k (serializeEnvelope none v) from rfl]
          exact getItem_setItem_self _ _ _)
  · intro hjar hksemi hkeq hksp hvsemi
    show (match getCookie (cookieJarRead
        (setCookie o now w.cookie k v .undefined)) k with
      | some s => ((some (JVal.str s) : Option JVal),
          storeSet .cookie o now w k v .undefined)
      | none => ((some JVal.null : Option JVal),
          storeSet .cookie o now w k v .undefined)).1 = some (JVal.str v)
    rw [setCookie_noDuration o now w.cookie k v hksemi hkeq hvsemi]
    rw [getCookie_jar _ _ (CookieJarOk_setItem w.cookie k v hjar
      ⟨hksemi, hkeq, hksp⟩ hvsemi) hkeq]
    rw [specGetCookie_setItem_self]

theorem claim_c2_amended_witness :
    CookieJarOk ([] : CookieJar) ∧ ¬ ';' ∈ (['k'] : Str) ∧ ¬ '=' ∈ (['k'] : Str) ∧
    ¬ ' ' ∈ (['k'] : Str) ∧ ¬ ';' ∈ (['h', 'i'] : Str) ∧
    (storeGet .webStorage ⟨false, false, none⟩
      (storeSet .webStorage ⟨false, false, none⟩ 0 ⟨[], [], []⟩ ['k'] ['h', 'i']
        .undefined) ['k']).1 = some (JVal.str ['h', 'i']) ∧
    (storeGet .cookie ⟨false, false, none⟩
      (storeSet .cookie ⟨false, false, none⟩ 0 ⟨[], [], []⟩ ['k'] ['h', 'i']
        .undefined) ['k']).1 = some (JVal.str ['h', 'i']) :=
  ⟨(by intro p hp; cases hp), by decide, by decide, by decide, by decide,
    (claim_c2_amended ⟨false, false, none⟩ 0 ⟨[], [], []⟩ ['k'] ['h', 'i']).1,
    (claim_c2_amended ⟨false, false, none⟩ 0 ⟨[], [], []⟩ ['k'] ['h', 'i']).2
      (by intro p hp; cases hp) (by decide) (by decide) (by decide) (by decide)⟩

/-- C8 counterexample: for the cookie string `a=b=c` (one pair, key `a`,
value `b=c`) and the requested key `a=b`, no pair's key matches `a=b`,
yet `getCookie` returns `c`: the code prefix-matches `a=b=` against the
chunk instead of comparing pair keys. -/
theorem claim_c8_counterexample :
    getCookie (cookieJarRead [(['a'], ['b', '=', 'c'])]) ['a', '=', 'b'] =
      some ['c'] ∧
    specGetCookie [(['a'], ['b', '=', 'c'])] ['a', '=', 'b'] = none :=
  ⟨rfl, rfl⟩

/-- C8 (amended): for every well-formed cookie jar rendered as a
semicolon-delimited string and every key `k` containing no `=`,
`get(k)` returns the value of the first pair whose key (after the
chunk's leading spaces are trimmed) equals `k`, and absent when none
matches; with duplicate keys the first occurrence wins.  (Keys
containing `=` can prefix-match into a value, as the counterexample
shows.) -/
theorem claim_c8_amended (jar : CookieJar) (k : Str) (hok : CookieJarOk jar)
    (hk : ¬ '=' ∈ k) :
    getCookie (cookieJarRead jar) k = specGetCookie jar k :=
  getCookie_jar jar k hok hk

theorem claim_c8_amended_witness :
    CookieJarOk [(['a'], ['1']), (['b'], ['2']), (['a'], ['3'])] ∧
    ¬ '=' ∈ (['a'] : Str) ∧
    getCookie (cookieJarRead [(['a'], ['1']), (['b'], ['2']), (['a'], ['3'])]) ['a'] =
      specGetCookie [(['a'], ['1']), (['b'], ['2']), (['a'], ['3'])] ['a'] :=
  ⟨(by unfold CookieJarOk CookieNameOk CookieValueOk; decide), by decide,
    claim_c8_amended [(['a'], ['1']), (['b'], ['2']), (['a'], ['3'])] ['a']
      (by unfold CookieJarOk CookieNameOk CookieValueOk; decide) (by decide)⟩
